import Mathlib

/-!
Verification of the ZeroTier `Identity` subsystem (src/node/Identity.cpp)
against its natural-language specification.

The development is a shallow embedding: buffers are `List Nat` of byte
values, machine words are read and written through explicit little-endian /
big-endian conversions, and the cryptographic primitives (SHA-384/512,
Salsa20, Poly1305, Curve25519, P-384 ECDSA/ECDH), which live outside the
analysed source file, are carried as fields of a `Crypto` record so that the
control flow and byte offsets of `Identity.cpp` — the object of study — are
embedded exactly.  The repository is assumed to run on a little-endian host
(the only configuration ZeroTier ships); this fixes the meaning of the raw
`uint64_t` reads in the V1 proof-of-work.
-/

namespace ZT

/-- Byte buffers: lists of byte values (each `< 256` for data that models
real memory; the definitions never assume it). -/
abbrev Bytes := List Nat

/-- Read of `w[off .. off+len)`: the `len` bytes of `w` starting at offset
`off` (shorter if the buffer ends first). -/
def slice (w : Bytes) (off len : Nat) : Bytes := (w.drop off).take len

/-- Overwrite `w[off .. off + v.length)` with `v`, modelling a `memcpy`
into a larger buffer. -/
def setSlice (w : Bytes) (off : Nat) (v : Bytes) : Bytes :=
  w.take off ++ v ++ w.drop (off + v.length)

/-- Pad (with zero bytes) or truncate a buffer to exactly `n` bytes. -/
def padTake (n : Nat) (b : Bytes) : Bytes := (b ++ List.replicate n 0).take n

theorem padTake_length (n : Nat) (b : Bytes) : (padTake n b).length = n := by
  simp [padTake]

theorem padTake_eq_self {n : Nat} {b : Bytes} (h : b.length = n) :
    padTake n b = b := by
  subst h; simp [padTake]

theorem setSlice_length {w v : Bytes} {off : Nat}
    (h : off + v.length ≤ w.length) : (setSlice w off v).length = w.length := by
  simp [setSlice]
  omega

/-- Little-endian read of the `uint64_t` stored at byte offset `off`
(the in-memory word value on the little-endian hosts the code targets). -/
def leWord (w : Bytes) (off : Nat) : Nat :=
  (slice w off 8).foldr (fun b a => a * 256 + b % 256) 0

/-- Big-endian read of the 8 bytes at offset `off`; this is
`Utils::ntoh` applied to the stored `uint64_t`. -/
def beWord (w : Bytes) (off : Nat) : Nat :=
  (slice w off 8).foldl (fun a b => a * 256 + b % 256) 0

/-- Big-endian 8-byte encoding of a 64-bit value; this is storing
`Utils::hton(n)` into memory. -/
def toBE8 (n : Nat) : Bytes :=
  [n / 72057594037927936 % 256, n / 281474976710656 % 256,
   n / 1099511627776 % 256, n / 4294967296 % 256,
   n / 16777216 % 256, n / 65536 % 256, n / 256 % 256, n % 256]

/-- Little-endian 8-byte encoding of a 64-bit value (storing a native
`uint64_t` on a little-endian host). -/
def toLE8 (n : Nat) : Bytes :=
  [n % 256, n / 256 % 256, n / 65536 % 256, n / 16777216 % 256,
   n / 4294967296 % 256, n / 1099511627776 % 256,
   n / 281474976710656 % 256, n / 72057594037927936 % 256]

/-!
## Primitive crypto adapters (spec §4.A)

The hash, cipher, MAC and elliptic-curve primitives are outside the
analysed source file, so they are carried abstractly as fields of a record.
Each field is given exactly the byte buffers the source passes to the
corresponding C function.  `salsa20` takes an explicit 64-byte block
counter so that one keyed instance whose keystream continues across
successive `crypt20` calls is modelled faithfully.
-/

structure Crypto where
  sha512 : Bytes → Bytes
  sha384 : Bytes → Bytes
  salsa20 : Bytes → Bytes → Nat → Bytes → Bytes
  salsa12 : Bytes → Bytes → Bytes → Bytes
  poly1305 : Bytes → Bytes → Bytes
  x25519 : Bytes → Bytes → Bytes
  c25519_sign : Bytes → Bytes → Bytes → Bytes
  c25519_verify : Bytes → Bytes → Bytes → Nat → Bool
  ecdsa_sign : Bytes → Bytes → Bytes
  ecdsa_verify : Bytes → Bytes → Bytes → Bool
  ecdh384 : Bytes → Bytes → Bytes
  b32e : Bytes → List Char
  b32d : List Char → Bytes

/-- Modelled from the spec: `C25519::agree(mine, their, out)` is missing
from the analysed sources.  Per §4.A and the glossary, a combined C25519
blob holds the Curve25519 DH key in its first 32 bytes, and the DH
primitive takes a 32-byte scalar and a 32-byte point; so agreement reads
the first 32 bytes of each buffer it is handed and applies x25519. -/
def c25519_agree (cr : Crypto) (priv pub : Bytes) : Bytes :=
  cr.x25519 (priv.take 32) (pub.take 32)

/-!
## Addresses (spec §6, §4.E)

The `Address` class is not part of the analysed source; it is modelled
from the spec: a 40-bit unsigned integer transported as 5 big-endian
bytes, with reserved predicate `addr == 0 ∨ ((addr >> 32) & 0xff) == 0xff`,
and construction from a fingerprint hash taking the hash's last 5 bytes
(spec §3 and §4.C: `address = fingerprint_hash[43..48]`).
-/

/-- Reserved-address oracle (spec §6). -/
def isReserved (a : Nat) : Bool :=
  (a == 0) || ((a / 4294967296) % 256 == 255)

/-- Address value read from 5 big-endian bytes
(the `Address(const uint8_t*)` constructor). -/
def addrOfBytes (b : Bytes) : Nat :=
  (b.take 5).foldl (fun a x => a * 256 + x % 256) 0

/-- Address written as 5 big-endian wire bytes (`Address::copyTo`). -/
def addrToBytes (a : Nat) : Bytes :=
  [a / 4294967296 % 256, a / 16777216 % 256, a / 65536 % 256,
   a / 256 % 256, a % 256]

/-- Modelled from the spec: `Address(m_fp.hash)` takes the LAST 5 bytes of
the 48-byte fingerprint hash (spec §3 invariant 3 and §4.C). -/
def addrOfHash (h : Bytes) : Nat := addrOfBytes (slice h 43 5)

/-!
## V1 proof of work: `identityV1ProofOfWorkCriteria` (Identity.cpp lines 94-136)

The work buffer `w` is `uint64_t w[131072 / 8]`, modelled as a flat list of
131072 bytes.  One iteration of the fill loop captures `ww = w + i` and
`wp = w + j` (with `i = j + 8` in words, i.e. byte offsets `i = j + 64`)
and then branches on the in-memory words `wp[0]` and `wp[1]`.
-/

/-- Modulus step of the second branch: for `k < 8`,
`ww[k] = Utils::hton(Utils::ntoh(wp[k]) % Pk)` with the eight fixed primes
(Identity.cpp lines 111-118). `j` is the byte offset of `wp`. -/
def modWords (w : Bytes) (j : Nat) : Bytes :=
  toBE8 (beWord w j % 4503599627370101) ++
  toBE8 (beWord w (j + 8) % 4503599627370161) ++
  toBE8 (beWord w (j + 16) % 4503599627370227) ++
  toBE8 (beWord w (j + 24) % 4503599627370287) ++
  toBE8 (beWord w (j + 32) % 4503599627370299) ++
  toBE8 (beWord w (j + 40) % 4503599627370323) ++
  toBE8 (beWord w (j + 48) % 4503599627370353) ++
  toBE8 (beWord w (j + 56) % 4503599627370449)

/-- One iteration of the fill loop of `identityV1ProofOfWorkCriteria`
(Identity.cpp lines 103-123), acting at destination byte offset `i` and
source byte offset `j`.  The branch conditions read the native
(little-endian) words `wp[0] & 7` and `wp[1] & 15`.  In the second branch
the source writes the eight reduced words to `ww` and then calls
`SHA384(ww, wp, 128)`: the digest input is the 128 bytes starting at `wp`
(that is `w[j .. j+128)`, the source slot followed by the just-written
slot), and only the 48 digest bytes overwrite the start of `ww`.  The
third branch keys Salsa20 with `key = wp[0..32)`, `iv = wp[32..40)` and
encrypts the 64 source bytes into the destination with `crypt12`. -/
def pow1Step (cr : Crypto) (w : Bytes) (i j : Nat) : Bytes :=
  if leWord w j % 8 = 0 then
    setSlice w i (cr.sha512 (slice w j 64))
  else if leWord w (j + 8) % 16 = 0 then
    let w1 := setSlice w i (modWords w j)
    setSlice w1 i (cr.sha384 (slice w1 j 128))
  else
    setSlice w i (cr.salsa12 (slice w j 32) (slice w (j + 32) 8) (slice w j 64))

/-- Variant of `pow1Step` following the WORDS OF THE SPEC for the second
branch (spec §4.B.2: overwrite `w[i..i+8] ← SHA-384(w[i..i+16])`, i.e. the
digest input starts at the just-written destination slot `i` rather than
at the source slot `j`).  Used only to compare the spec sentence with the
source. -/
def pow1StepSpecClaim (cr : Crypto) (w : Bytes) (i j : Nat) : Bytes :=
  if leWord w j % 8 = 0 then
    setSlice w i (cr.sha512 (slice w j 64))
  else if leWord w (j + 8) % 16 = 0 then
    let w1 := setSlice w i (modWords w j)
    setSlice w1 i (cr.sha384 (slice w1 i 128))
  else
    setSlice w i (cr.salsa12 (slice w j 32) (slice w (j + 32) 8) (slice w j 64))

/-- Ascending insertion into a sorted list (used to model `std::sort`). -/
def insertAsc (x : Nat) : List Nat → List Nat
  | [] => [x]
  | y :: ys => if x ≤ y then x :: y :: ys else y :: insertAsc x ys

/-- Ascending sort (the result of `std::sort` on unsigned integers). -/
def sortAsc (l : List Nat) : List Nat := l.foldr insertAsc []

/-- View of the byte buffer as its list of little-endian 64-bit words. -/
def leWords (w : Bytes) : List Nat :=
  (List.range (w.length / 8)).map (fun k => leWord w (8 * k))

/-- Sort the buffer as little-endian `uint64_t` values in ascending order
(Identity.cpp line 129 with `p_CompareLittleEndian` on the little-endian
host) and re-serialise. -/
def sortLEWords (w : Bytes) : Bytes :=
  (sortAsc (leWords w)).foldr (fun n acc => toLE8 n ++ acc) []

/-- Full `identityV1ProofOfWorkCriteria(in, len)` (Identity.cpp lines
94-136): seed the first 64 bytes with SHA-512 of the input, run the fill
loop for word indices `i = 8 .. 16384` (2047 iterations, byte offsets
`64(k+1)` and `64k`), sort the words, Poly1305 the whole buffer keyed by
its own first 32 bytes writing the 16-byte tag over the start, and accept
iff the big-endian value of the first word is divisible by 1000. -/
def identityV1ProofOfWorkCriteria (cr : Crypto) (input : Bytes) : Bool :=
  let w0 := setSlice (List.replicate 131072 0) 0 (cr.sha512 input)
  let w1 := (List.range 2047).foldl
    (fun w k => pow1Step cr w (64 * (k + 1)) (64 * k)) w0
  let ws := sortLEWords w1
  let w2 := setSlice ws 0 (cr.poly1305 (slice ws 0 32) ws)
  beWord w2 0 % 1000 == 0

/-!
## V0 proof of work: `identityV0ProofOfWorkFrankenhash` (Identity.cpp lines 32-65)

The 2 MiB scratch `genmem` is modelled as a byte list; the single Salsa20
instance seeded from the initial digest is modelled by passing an explicit
block counter (each `crypt20` call here processes exactly 64 bytes = one
keystream block).
-/

/-- One iteration of the final mixing loop (Identity.cpp lines 57-64):
read two big-endian words of `genmem` at word indices `2t` and `2t+1`,
derive indices `idx1 = · % 8` (digest word) and `idx2 = · % 262144`
(genmem word), swap the two 8-byte words, then encrypt the digest in
place, continuing the keystream at block `32768 + t`. -/
def frankenMixStep (cr : Crypto) (key iv : Bytes) (t : Nat)
    (dg : Bytes × Bytes) : Bytes × Bytes :=
  let digest := dg.1
  let gen := dg.2
  let idx1 := beWord gen (16 * t) % 8
  let idx2 := beWord gen (16 * t + 8) % 262144
  let tmp := slice gen (8 * idx2) 8
  let gen1 := setSlice gen (8 * idx2) (slice digest (8 * idx1) 8)
  let digest1 := setSlice digest (8 * idx1) tmp
  (cr.salsa20 key iv (32768 + t) digest1, gen1)

/-- Full `identityV0ProofOfWorkFrankenhash(publicKey, ...)`: digest the
key with SHA-512; zero the 2,097,152-byte `genmem`; encrypt its first 64
bytes with Salsa20 keyed by `digest[0..32)` / IV `digest[32..40)`; then
for each further 64-byte block copy the previous block and encrypt in
place (blocks 1..32767 of the keystream); finally run 131072 mixing
iterations over `(digest, genmem)` and return the 64-byte digest. -/
def identityV0ProofOfWorkFrankenhash (cr : Crypto) (publicKey : Bytes) : Bytes :=
  let digest0 := cr.sha512 publicKey
  let key := slice digest0 0 32
  let iv := slice digest0 32 8
  let gen0 : Bytes := List.replicate 2097152 0
  let gen1 := setSlice gen0 0 (cr.salsa20 key iv 0 (slice gen0 0 64))
  let genFull := (List.range 32767).foldl
    (fun g t =>
      let i := 64 * (t + 1)
      let g1 := setSlice g i (slice g (i - 64) 64)
      setSlice g1 i (cr.salsa20 key iv (t + 1) (slice g1 i 64))) gen1
  let fin := (List.range 131072).foldl
    (fun dg t => frankenMixStep cr key iv t dg) (digest0, genFull)
  fin.1

/-!
## Data model (spec §3, Identity.hpp via the spec)

An identity is a tagged record.  Sizes fixed by the spec (normative):
C25519 public/private 64/64 bytes; P384 compound public
`1 + 64 + 49 = 114` bytes (nonce ‖ combined C25519 ‖ compressed P-384
point) and compound private `1 + 64 + 48 = 113` bytes of the same
structure.  `priv = []` models an absent private blob. -/

inductive IdType where
  | c25519 : IdType
  | p384 : IdType
deriving DecidableEq, Repr

structure Identity where
  type : IdType
  addr : Nat
  fpHash : Bytes
  pub : Bytes
  priv : Bytes
  hasPrivate : Bool
deriving DecidableEq, Repr

/-- Method `Identity::m_computeHash` (Identity.cpp lines 524-537): the
fingerprint hash is SHA-384 of the public blob at the size fixed by the
type (64 bytes for C25519, 114 for P384). -/
def computeHash (cr : Crypto) (t : IdType) (pub : Bytes) : Bytes :=
  match t with
  | .c25519 => cr.sha384 (padTake 64 pub)
  | .p384 => cr.sha384 (padTake 114 pub)

/-- Key material laid out by the P384 arm of `Identity::generate`
(Identity.cpp lines 164-188) once the proof-of-work loop has settled on a
nonce and key pairs: `m_pub[0]` is the nonce; the combined C25519 public
and private keys are written at offset 1 of `m_pub` and `m_priv`; the
ECC384 public key is written at `m_pub + 1 + 64`; the ECC384 private key
is written at `m_priv + 64` (the byte offset
`ZT_C25519_COMBINED_PRIVATE_KEY_SIZE`, NOT `1 + 64`); `m_priv` starts out
zeroed.  The fingerprint hash and address are computed from the public
blob. -/
def genP384 (cr : Crypto) (nonce : Nat) (cpub cpriv epub epriv : Bytes) :
    Identity :=
  let pub := nonce :: cpub ++ epub
  let priv := setSlice (setSlice (List.replicate 113 0) 1 cpriv) 64 epriv
  let h := computeHash cr .p384 pub
  { type := .p384, addr := addrOfHash h, fpHash := h,
    pub := pub, priv := priv, hasPrivate := true }

/-- Method `Identity::sign` (Identity.cpp lines 238-258).  Returns the C
return value together with the bytes written into the caller's signature
buffer.  The C25519 case has no `break`, so on an undersized buffer
control falls into the P384 case body (whose size test, against the same
constant 96, also fails).  The P384 signature is ECDSA over
`SHA384(data ‖ m_pub)` (`sizeof(m_pub)` = 114) with the private scalar
read at `m_priv + 1 + ZT_C25519_COMBINED_PUBLIC_KEY_SIZE` = byte offset
65. -/
def Identity.sign (cr : Crypto) (id : Identity) (data : Bytes)
    (siglen : Nat) : Nat × Bytes :=
  if id.hasPrivate then
    match id.type with
    | .c25519 =>
      if 96 ≤ siglen then
        (96, cr.c25519_sign id.priv id.pub data)
      else if 96 ≤ siglen then
        (96, cr.ecdsa_sign (slice id.priv 65 48)
          (cr.sha384 (data ++ padTake 114 id.pub)))
      else (0, [])
    | .p384 =>
      if 96 ≤ siglen then
        (96, cr.ecdsa_sign (slice id.priv 65 48)
          (cr.sha384 (data ++ padTake 114 id.pub)))
      else (0, [])
  else (0, [])

/-- Method `Identity::verify` (Identity.cpp lines 260-274).  For P384 the
signature length must be exactly 96 and ECDSA is checked over
`SHA384(data ‖ m_pub)` with the public point at `m_pub + 1 + 64`. -/
def Identity.verify (cr : Crypto) (id : Identity) (data sig : Bytes)
    (siglen : Nat) : Bool :=
  match id.type with
  | .c25519 => cr.c25519_verify id.pub data sig siglen
  | .p384 =>
    if siglen == 96 then
      cr.ecdsa_verify (slice id.pub 65 49)
        (cr.sha384 (data ++ padTake 114 id.pub)) sig
    else false

/-- Method `Identity::agree` (Identity.cpp lines 276-312).  Returns the
48-byte symmetric key on success.  Note which buffers the source passes:
in every case the C25519 agreement receives `m_priv` and `id.m_pub`
unmodified (no offset into a P384 compound blob), while the P384↔P384
case passes the ECDH point at `id.m_pub + 1 + 64` and the scalar at
`m_priv + ZT_C25519_COMBINED_PRIVATE_KEY_SIZE` = 64.  The C25519 branch
hashes the 32-byte DH secret with SHA-512; the P384↔P384 branch hashes
the concatenated 32 + 48 byte secrets with SHA-384; either hash is
truncated to the 48-byte key. -/
def Identity.agree (cr : Crypto) (id other : Identity) :
    Option Bytes :=
  if id.hasPrivate then
    match id.type with
    | .c25519 =>
      let raw := c25519_agree cr id.priv other.pub
      some ((cr.sha512 (padTake 32 raw)).take 48)
    | .p384 =>
      match other.type with
      | .p384 =>
        let raw := c25519_agree cr id.priv other.pub
        let raw2 := cr.ecdh384 (slice other.pub 65 49) (slice id.priv 64 48)
        some ((cr.sha384 (padTake 32 raw ++ padTake 48 raw2)).take 48)
      | .c25519 =>
        let raw := c25519_agree cr id.priv other.pub
        some ((cr.sha512 (padTake 32 raw)).take 48)
  else none

/-- Method `Identity::locallyValidate` (Identity.cpp lines 197-220).  The
guard `(m_fp)` is the `Fingerprint` truth test, modelled from the spec as
a nonzero address (reserved addresses include 0, spec §3 invariant 1).
For C25519 the V0 proof of work is re-run on the 64-byte public key and
the digest must place the address at bytes 59..64 and have first byte
< 17; for P384 the stored fingerprint hash must yield the address and the
V1 proof of work must accept the 114-byte public blob. -/
def Identity.locallyValidate (cr : Crypto) (id : Identity) : Bool :=
  if id.addr != 0 && !isReserved id.addr then
    match id.type with
    | .c25519 =>
      let digest := identityV0ProofOfWorkFrankenhash cr (padTake 64 id.pub)
      (addrOfBytes (slice digest 59 5) == id.addr) &&
        decide (digest.getD 0 0 < 17)
    | .p384 =>
      if addrOfHash id.fpHash != id.addr then false
      else identityV1ProofOfWorkCriteria cr (padTake 114 id.pub)
  else false

/-!
## Textual codec helpers

`Utils::hex`, `Utils::unhex`, `Utils::hexStrToU64` and
`Address::toString` are not part of the analysed source.  They are
modelled from the spec (§4.E: hex fields are lowercase hex of the raw
blobs, the address field is 10 lowercase hex digits, wrong-sized blobs
are rejected): `hexStrToU64` accumulates leading hexadecimal digits (any
case) into a wrapping 64-bit value, and `unhexChars` strictly decodes an
even-length string of hex digits.
-/

/-- Lowercase hex digit for a nibble. -/
def hexDigitChar (v : Nat) : Char :=
  if v < 10 then Char.ofNat (48 + v) else Char.ofNat (87 + v)

/-- Lowercase hex of a byte string (`Utils::hex`). -/
def hexChars (b : Bytes) : List Char :=
  b.foldr (fun x acc => hexDigitChar (x / 16 % 16) :: hexDigitChar (x % 16) :: acc) []

/-- Ten-digit lowercase hex of a 40-bit address (`Address::toString`). -/
def addrHex10 (a : Nat) : List Char :=
  (List.range 10).map (fun k => hexDigitChar (a / 16 ^ (9 - k) % 16))

/-- Value of one hex digit, if any. -/
def hexVal (c : Char) : Option Nat :=
  if 48 ≤ c.toNat ∧ c.toNat ≤ 57 then some (c.toNat - 48)
  else if 97 ≤ c.toNat ∧ c.toNat ≤ 102 then some (c.toNat - 87)
  else if 65 ≤ c.toNat ∧ c.toNat ≤ 70 then some (c.toNat - 55)
  else none

/-- Modelled from the spec: `Utils::hexStrToU64` parses leading hex
digits into a 64-bit accumulator and stops at the first non-hex
character. -/
def hexStrToU64 : List Char → Nat → Nat
  | [], acc => acc
  | c :: r, acc =>
    match hexVal c with
    | some v => hexStrToU64 r ((acc * 16 + v) % 18446744073709551616)
    | none => acc

/-- Modelled from the spec: strict hex decoding; `none` on an odd length
or a non-hex character. -/
def unhexChars : List Char → Option Bytes
  | [] => some []
  | [_] => none
  | c1 :: c2 :: r =>
    match hexVal c1, hexVal c2, unhexChars r with
    | some v1, some v2, some b => some ((v1 * 16 + v2) :: b)
    | _, _, _ => none

/-- Tokeniser worker for `Utils::stok` (strtok semantics: maximal runs of
non-separator characters; empty fields never appear). -/
def stokGo (cur : List Char) : List Char → List (List Char)
  | [] => if cur = [] then [] else [cur.reverse]
  | c :: rest =>
    if c = ':' then
      (if cur = [] then stokGo [] rest else cur.reverse :: stokGo [] rest)
    else stokGo (c :: cur) rest

/-- Split on colons the way the `Utils::stok` loop of
`Identity::fromString` does. -/
def stok (s : List Char) : List (List Char) := stokGo [] s

/-!
## `Identity::fromString` (Identity.cpp lines 355-431)

The field loop is modelled on the token list: field 0 parses the address
(`hexStrToU64(f) & ZT_ADDRESS_MASK`, reject if reserved), field 1 must be
exactly "0" or "1", field 2 decodes the public blob at the exact size of
the type, and field 3 — only when its length exceeds one — decodes the
private blob.  The loop stops after four fields (`fno < 4`), so further
fields are ignored; fewer than three fields is rejected; finally the
fingerprint hash is computed and, for P384 only, the address must equal
the address embedded in the hash.
-/

/-- Field 1: exactly the string "0" or "1". -/
def parseType (f : List Char) : Option IdType :=
  if f = ['0'] then some .c25519
  else if f = ['1'] then some .p384
  else none

/-- Field 2 (public blob): hex for C25519 (must decode to exactly 64
bytes), base32 for P384 (must decode to exactly 114 bytes). -/
def parsePub (cr : Crypto) (t : IdType) (f : List Char) : Option Bytes :=
  match t with
  | .c25519 =>
    match unhexChars f with
    | some b => if b.length = 64 then some b else none
    | none => none
  | .p384 =>
    let d := cr.b32d f
    if d.length = 114 then some d else none

/-- Field 3 (private blob, only examined when longer than one
character): hex to exactly 64 bytes for C25519, base32 to exactly 113
bytes for P384. -/
def parsePriv (cr : Crypto) (t : IdType) (f : List Char) : Option Bytes :=
  match t with
  | .c25519 =>
    match unhexChars f with
    | some b => if b.length = 64 then some b else none
    | none => none
  | .p384 =>
    let d := cr.b32d f
    if d.length = 113 then some d else none

/-- Fields 0-2 of the loop: address (masked to 40 bits, reserved
rejected), type, public blob; the fingerprint hash is `m_computeHash`. -/
def parse3 (cr : Crypto) (f0 f1 f2 : List Char) : Option Identity :=
  let a := hexStrToU64 f0 0 % 1099511627776
  if isReserved a then none
  else
    match parseType f1 with
    | none => none
    | some t =>
      match parsePub cr t f2 with
      | none => none
      | some pb =>
        some { type := t, addr := a, fpHash := computeHash cr t pb,
               pub := pb, priv := [], hasPrivate := false }

/-- Final check of `fromString` (line 430): reject a P384 identity whose
parsed address is not the address embedded in the recomputed fingerprint
hash. -/
def finalCheck (id : Identity) : Option Identity :=
  if id.type = .p384 ∧ addrOfHash id.fpHash ≠ id.addr then none else some id

/-- Field loop of `Identity::fromString` on an (at most four element)
token list. -/
def fromStringTokens (cr : Crypto) : List (List Char) → Option Identity
  | [f0, f1, f2] => (parse3 cr f0 f1 f2).bind finalCheck
  | [f0, f1, f2, f3] =>
    (parse3 cr f0 f1 f2).bind fun id =>
      if f3.length ≤ 1 then finalCheck id
      else
        match parsePriv cr id.type f3 with
        | none => none
        | some pv => finalCheck { id with priv := pv, hasPrivate := true }
  | _ => none

/-- Method `Identity::fromString`: tokenise, process at most four
fields. -/
def Identity.fromString (cr : Crypto) (s : List Char) : Option Identity :=
  fromStringTokens cr ((stok s).take 4)

/-- Method `Identity::toString` (Identity.cpp lines 314-353): address as
ten lowercase hex digits, the type digit, the public blob (hex for
C25519, base32 for P384) and, when requested and present, the private
blob.  A failing base32 encoding (`el <= 0`, modelled as the empty
encoding) yields `nullptr` = `none`. -/
def Identity.toString (cr : Crypto) (id : Identity)
    (includePrivate : Bool) : Option (List Char) :=
  match id.type with
  | .c25519 =>
    some (addrHex10 id.addr ++ ':' :: '0' :: ':' :: hexChars (padTake 64 id.pub) ++
      (if id.hasPrivate && includePrivate then
        ':' :: hexChars (padTake 64 id.priv) else []))
  | .p384 =>
    let e := cr.b32e (padTake 114 id.pub)
    if e = [] then none
    else if id.hasPrivate && includePrivate then
      let e2 := cr.b32e (padTake 113 id.priv)
      if e2 = [] then none
      else some (addrHex10 id.addr ++ ':' :: '1' :: ':' :: e ++ ':' :: e2)
    else some (addrHex10 id.addr ++ ':' :: '1' :: ':' :: e)

/-!
## Binary codec (Identity.cpp lines 433-522)
-/

/-- Method `Identity::marshal`: 5 address bytes, the type byte, the
public blob, then either a length byte equal to the private size followed
by the private blob (when requested and present) or a zero length
byte. -/
def Identity.marshal (id : Identity) (includePrivate : Bool) : Bytes :=
  addrToBytes id.addr ++
    match id.type with
    | .c25519 =>
      0 :: padTake 64 id.pub ++
        (if includePrivate && id.hasPrivate then 64 :: padTake 64 id.priv
         else [0])
    | .p384 =>
      1 :: padTake 114 id.pub ++
        (if includePrivate && id.hasPrivate then 113 :: padTake 113 id.priv
         else [0])

/-- Method `Identity::unmarshal`: read the address and the type byte
(unknown type bytes fail); read the fixed-size public blob and compute
the fingerprint hash; for P384 reject when the address embedded in the
hash differs from the wire address; then read the private length byte,
which must be 0 (no private) or exactly the private size for the type.
Returns the identity and the number of bytes consumed.  NOTE: no
reserved-address check is performed here. -/
def Identity.unmarshal (cr : Crypto) (data : Bytes) :
    Option (Identity × Nat) :=
  if data.length < 6 then none
  else
    let a := addrOfBytes (data.take 5)
    if data.getD 5 0 = 0 then
      if data.length < 71 then none
      else
        let pub := slice data 6 64
        let h := computeHash cr .c25519 pub
        let privlen := data.getD 70 0
        if privlen = 64 then
          if data.length < 135 then none
          else some ({ type := .c25519, addr := a, fpHash := h, pub := pub,
                       priv := slice data 71 64, hasPrivate := true }, 135)
        else if privlen = 0 then
          some ({ type := .c25519, addr := a, fpHash := h, pub := pub,
                  priv := [], hasPrivate := false }, 71)
        else none
    else if data.getD 5 0 = 1 then
      if data.length < 121 then none
      else
        let pub := slice data 6 114
        let h := computeHash cr .p384 pub
        if addrOfHash h ≠ a then none
        else
          let privlen := data.getD 120 0
          if privlen = 113 then
            if data.length < 234 then none
            else some ({ type := .p384, addr := a, fpHash := h, pub := pub,
                         priv := slice data 121 113, hasPrivate := true }, 234)
          else if privlen = 0 then
            some ({ type := .p384, addr := a, fpHash := h, pub := pub,
                    priv := [], hasPrivate := false }, 121)
          else none
    else none

/-!
## Concrete primitive instantiations

Cheap, kernel-evaluable stand-ins for the abstract primitives, used to
evaluate the embedded operations at concrete inputs (witnesses and
counterexamples).  `cryptoDH` satisfies Diffie-Hellman symmetry for real
key pairs (`pub = incBytes priv`), and `cryptoC1` satisfies ECDSA
correctness for real key pairs (`point = 7 :: incBytes scalar`), so that
failures exhibited under them are attributable to the identity layer and
not to the stand-ins.
-/

/-- Byte-wise increment modulo 256 (toy public key derivation). -/
def incBytes (b : Bytes) : Bytes := b.map (fun x => (x + 1) % 256)

/-- Byte-wise decrement (toy inverse of `incBytes` on bytes 1..255). -/
def decBytes (b : Bytes) : Bytes := b.map (fun x => x - 1)

/-- Lexicographic comparison of byte strings. -/
def lexLe : Bytes → Bytes → Bool
  | [], _ => true
  | _ :: _, [] => false
  | a :: as, b :: bs => if a < b then true else if b < a then false else lexLe as bs

/-- Toy base32: two alphabet characters per byte (never a colon). -/
def b32eToy (b : Bytes) : List Char :=
  b.foldr (fun x acc =>
    Char.ofNat (97 + x / 16 % 16) :: Char.ofNat (97 + x % 16) :: acc) []

/-- Toy base32 decoding, inverse of `b32eToy` on byte strings. -/
def b32dToy : List Char → Bytes
  | c1 :: c2 :: r => ((c1.toNat - 97) * 16 + (c2.toNat - 97)) :: b32dToy r
  | _ => []

/-- Generic cheap instantiation. -/
def cryptoToy : Crypto where
  sha512 := fun x => padTake 64 x
  sha384 := fun x => padTake 48 x
  salsa20 := fun _ _ _ inp => inp
  salsa12 := fun _ _ inp => inp
  poly1305 := fun _ _ => List.replicate 16 0
  x25519 := fun sk pt => padTake 32 (sk ++ pt)
  c25519_sign := fun priv pub data => padTake 96 (data ++ priv ++ pub)
  c25519_verify := fun _ _ _ _ => true
  ecdsa_sign := fun sc h => padTake 96 (sc ++ h)
  ecdsa_verify := fun _ _ _ => true
  ecdh384 := fun pt sc => padTake 48 (pt ++ sc)
  b32e := b32eToy
  b32d := b32dToy

/-- Instantiation whose x25519 is symmetric in the Diffie-Hellman sense:
for key pairs `A = incBytes a`, `B = incBytes b` (32-byte halves) one has
`x25519 a B = x25519 b A` — both are the lexicographic minimum of
`incBytes a` and `incBytes b`. -/
def cryptoDH : Crypto :=
  { cryptoToy with
    x25519 := fun sk pt =>
      if lexLe (incBytes (sk.take 32)) (pt.take 32) then
        incBytes (sk.take 32)
      else pt.take 32 }

/-- Instantiation whose ECDSA is correct for real key pairs
(`point = 7 :: incBytes scalar`): `ecdsa_verify point h (ecdsa_sign
scalar h) = true`, and a signature made with any other scalar is
rejected. -/
def cryptoC1 : Crypto :=
  { cryptoToy with
    ecdsa_sign := fun sc h => sc ++ h
    ecdsa_verify := fun pt h sig => decide (sig = decBytes (pt.drop 1) ++ h) }

/-!
## Buffer algebra
-/

theorem slice_append_left {u t : Bytes} {off n : Nat}
    (h : off + n ≤ u.length) : slice (u ++ t) off n = slice u off n := by
  unfold slice
  rw [List.drop_append_of_le_length (by omega),
    List.take_append_of_le_length (by simp; omega)]

theorem slice_setSlice_self {w v : Bytes} {o : Nat} (h : o ≤ w.length) :
    slice (setSlice w o v) o v.length = v := by
  unfold slice setSlice
  have hl : (w.take o).length = o := by simp; omega
  rw [List.append_assoc, List.drop_left' hl, List.take_left' rfl]

theorem slice_setSlice_before {w v : Bytes} {off o2 n : Nat}
    (h : o2 + n ≤ off) (hw : off ≤ w.length) :
    slice (setSlice w off v) o2 n = slice w o2 n := by
  unfold setSlice
  rw [slice_append_left (u := w.take off ++ v) (by simp; omega)]
  rw [slice_append_left (u := w.take off) (by simp; omega)]
  unfold slice
  rw [List.drop_take, List.take_take]
  congr 1
  omega

theorem slice_setSlice_after {w v : Bytes} {off o2 n : Nat}
    (h : off + v.length ≤ o2) (hw : off ≤ w.length) :
    slice (setSlice w off v) o2 n = slice w o2 n := by
  unfold setSlice slice
  have hl : (w.take off ++ v).length = off + v.length := by simp; omega
  have h2 : o2 = (w.take off ++ v).length + (o2 - off - v.length) := by
    rw [hl]; omega
  rw [h2, List.drop_append, List.drop_drop]
  congr 2
  simp
  omega

theorem slice_setSlice_inside {w v : Bytes} {o a n : Nat}
    (ha : a + n ≤ v.length) (hw : o ≤ w.length) :
    slice (setSlice w o v) (o + a) n = slice v a n := by
  unfold setSlice slice
  have hl : (w.take o).length = o := by simp; omega
  rw [List.append_assoc, show o + a = (w.take o).length + a by rw [hl],
    List.drop_append, List.drop_append_of_le_length (by omega),
    List.take_append_of_le_length (by simp; omega)]

theorem slice_length {w : Bytes} {off n : Nat} (h : off + n ≤ w.length) :
    (slice w off n).length = n := by
  simp [slice]; omega

theorem modWords_length (w : Bytes) (j : Nat) : (modWords w j).length = 64 := by
  simp [modWords, toBE8]

theorem slice_split (x : Bytes) (off m n : Nat) :
    slice x off (m + n) = slice x off m ++ slice x (off + m) n := by
  unfold slice
  rw [List.take_add, List.drop_drop]

/-!
## Claims
-/

/-- C8: for every identity and message, `sign` returns 0 exactly when the
identity has no private key or the caller's signature buffer is smaller
than 96 bytes; in all other cases it returns 96 (having written the
signature). -/
theorem sign_zero_iff_failure (cr : Crypto) (id : Identity) (data : Bytes)
    (siglen : Nat) :
    ((Identity.sign cr id data siglen).1 = 0 ↔
      (id.hasPrivate = false ∨ siglen < 96)) ∧
    (id.hasPrivate = true → 96 ≤ siglen →
      (Identity.sign cr id data siglen).1 = 96) := by
  obtain ⟨t, a, h, pub, priv, hp⟩ := id
  cases hp <;> cases t <;> simp only [Identity.sign] <;>
    split_ifs <;> simp_all

theorem parse3_hasPrivate {cr : Crypto} {f0 f1 f2 : List Char}
    {p : Identity} (h : parse3 cr f0 f1 f2 = some p) :
    p.hasPrivate = false := by
  simp only [parse3] at h
  split at h
  · exact absurd h (by simp)
  · split at h
    · exact absurd h (by simp)
    · split at h
      · exact absurd h (by simp)
      · cases h; rfl

theorem finalCheck_some {p q : Identity} (h : finalCheck p = some q) :
    q = p := by
  simp only [finalCheck] at h
  split at h
  · exact absurd h (by simp)
  · cases h; rfl

/-- C10: a four-field textual identity whose fourth (private) field has
length exactly one is parsed exactly as the corresponding three-field
input — the one-character private field is ignored, parsing proceeds
subject only to the remaining checks, and any resulting identity has no
private key. -/
theorem fromString_len1_private_field_ignored (cr : Crypto)
    (s f0 f1 f2 f3 : List Char) (hs : stok s = [f0, f1, f2, f3])
    (h3 : f3.length = 1) :
    Identity.fromString cr s = fromStringTokens cr [f0, f1, f2] ∧
    Option.all (fun id => !id.hasPrivate) (Identity.fromString cr s) = true := by
  have hfs : Identity.fromString cr s = fromStringTokens cr [f0, f1, f2, f3] := by
    simp [Identity.fromString, hs]
  have h31 : f3.length ≤ 1 := by omega
  have heq : fromStringTokens cr [f0, f1, f2, f3] =
      fromStringTokens cr [f0, f1, f2] := by
    simp only [fromStringTokens, h31, if_true]
  refine ⟨hfs.trans heq, ?_⟩
  rw [hfs, heq]
  simp only [fromStringTokens]
  cases hp : parse3 cr f0 f1 f2
  · simp [hp]
  · rename_i p
    cases hf : finalCheck p
    · simp [hp, hf]
    · rename_i q
      have hq : q = p := finalCheck_some hf
      have hpf : p.hasPrivate = false := parse3_hasPrivate hp
      simp [hp, hf, hq, hpf]

/-- Demo address field: ten lowercase hex digits. -/
def c10addr : List Char := addrHex10 0xaabbccddee

/-- Demo public-key field: 128 hex zeros (a 64-byte C25519 public blob). -/
def c10pubhex : List Char := hexChars (List.replicate 64 0)

/-- Demo four-field textual identity whose private field is the single
character q. -/
def c10str : List Char :=
  c10addr ++ ':' :: '0' :: ':' :: c10pubhex ++ [':', 'q']

/-- Work buffer for exercising the second branch of the V1 PoW fill loop
at `i = 64`, `j = 0`: source word 0 is 1 (not divisible by 8), source
word 1 is 16 (divisible by 16). -/
def c2w : Bytes :=
  1 :: List.replicate 7 0 ++ 16 :: List.replicate 7 0 ++
    List.replicate 48 0 ++ List.replicate 64 7 ++ List.replicate 64 5

set_option maxRecDepth 100000 in
/-- C2 (counterexample): on a branch-2 iteration the engine does NOT hash
the 128 bytes `w[i..i+16]` (destination slot followed by the next 64
bytes) as the claim states; the variant that follows the claim's words
(`pow1StepSpecClaim`) computes a different buffer than the source embedding
on a concrete state in which branch 2 is taken. -/
theorem pow1_branch2_claim_false :
    (leWord c2w 0 % 8 ≠ 0 ∧ leWord c2w 8 % 16 = 0) ∧
    pow1Step cryptoToy c2w 64 0 ≠ pow1StepSpecClaim cryptoToy c2w 64 0 := by
  decide

/-- C2 (amended): on every iteration of the V1 PoW fill loop that takes
the second branch, after the eight modulus-reduced words are written into
the destination slot, the SHA-384 digest input is the 128 bytes starting
at the SOURCE slot — the 64 source bytes `w[j..j+64)` followed by the 64
just-written bytes — and the digest replaces only the first 48 bytes of
the destination slot, the remaining 16 keeping the modulus-step values. -/
theorem pow1_branch2_digest_from_source (cr : Crypto) (w : Bytes) (i j : Nat)
    (hij : i = j + 64) (hw : i + 64 ≤ w.length)
    (h1 : leWord w j % 8 ≠ 0) (h2 : leWord w (j + 8) % 16 = 0)
    (hlen : (cr.sha384 (slice w j 64 ++ modWords w j)).length = 48) :
    slice (pow1Step cr w i j) i 48 = cr.sha384 (slice w j 64 ++ modWords w j) ∧
    slice (pow1Step cr w i j) (i + 48) 16 = slice (modWords w j) 48 16 := by
  have hmw : (modWords w j).length = 64 := modWords_length w j
  have hwl : (setSlice w i (modWords w j)).length = w.length :=
    setSlice_length (by omega)
  have hslice : slice (setSlice w i (modWords w j)) j 128 =
      slice w j 64 ++ modWords w j := by
    rw [show (128 : Nat) = 64 + 64 from rfl, slice_split]
    congr 1
    · exact slice_setSlice_before (by omega) (by omega)
    · rw [show j + 64 = i from hij.symm]
      have := slice_setSlice_self (w := w) (v := modWords w j) (o := i)
        (by omega)
      rwa [hmw] at this
  unfold pow1Step
  rw [if_neg h1, if_pos h2]
  simp only
  rw [hslice]
  constructor
  · have := slice_setSlice_self (w := setSlice w i (modWords w j))
      (v := cr.sha384 (slice w j 64 ++ modWords w j)) (o := i)
      (by omega)
    rwa [hlen] at this
  · rw [slice_setSlice_after (by omega) (by omega)]
    have := slice_setSlice_inside (w := w) (v := modWords w j)
      (o := i) (a := 48) (n := 16) (by omega) (by omega)
    exact this

set_option maxRecDepth 100000 in
/-- Witness for the amended C2 at the concrete branch-2 state. -/
theorem pow1_branch2_digest_from_source_witness :
    slice (pow1Step cryptoToy c2w 64 0) 64 48 =
      cryptoToy.sha384 (slice c2w 0 64 ++ modWords c2w 0) ∧
    slice (pow1Step cryptoToy c2w 64 0) (64 + 48) 16 =
      slice (modWords c2w 0) 48 16 :=
  pow1_branch2_digest_from_source cryptoToy c2w 64 0 (by decide)
    (by decide) (by decide) (by decide) (by decide)

theorem parse3_addr_not_reserved {cr : Crypto} {f0 f1 f2 : List Char}
    {p : Identity} (h : parse3 cr f0 f1 f2 = some p) :
    isReserved p.addr = false := by
  simp only [parse3] at h
  split at h
  · exact absurd h (by simp)
  · rename_i hres
    split at h
    · exact absurd h (by simp)
    · split at h
      · exact absurd h (by simp)
      · cases h
        simpa using hres

theorem fromStringTokens_addr_not_reserved {cr : Crypto}
    {l : List (List Char)} {id : Identity}
    (h : fromStringTokens cr l = some id) : isReserved id.addr = false := by
  unfold fromStringTokens at h
  split at h
  · rename_i f0 f1 f2
    cases hp : parse3 cr f0 f1 f2 <;> rw [hp] at h
    · exact absurd h (by simp)
    · rename_i p
      simp only [Option.some_bind] at h
      rw [finalCheck_some h]
      exact parse3_addr_not_reserved hp
  · rename_i f0 f1 f2 f3
    cases hp : parse3 cr f0 f1 f2 <;> rw [hp] at h
    · exact absurd h (by simp)
    · rename_i p
      simp only [Option.some_bind] at h
      split at h
      · rw [finalCheck_some h]
        exact parse3_addr_not_reserved hp
      · split at h
        · exact absurd h (by simp)
        · have := finalCheck_some h
          subst this
          simpa using parse3_addr_not_reserved hp
  · exact absurd h (by simp)

/-- C4 (amended): every identity accepted by `fromString` has a
non-reserved address (the reserved check is applied to the parsed address
field); `unmarshal`, by contrast, performs no reservedness check. -/
theorem fromString_addr_not_reserved (cr : Crypto) (s : List Char)
    (id : Identity) (h : Identity.fromString cr s = some id) :
    isReserved id.addr = false :=
  fromStringTokens_addr_not_reserved h

/-- Wire bytes of a C25519 identity record whose 5-byte address field is
all zero (the reserved address 0): 5 address bytes, type byte 0, a
64-byte public blob, and private length 0. -/
def c4bytes : Bytes :=
  List.replicate 5 0 ++ 0 :: List.replicate 64 9 ++ [0]

/-- Identity produced by unmarshalling `c4bytes`. -/
def c4id : Identity :=
  { type := .c25519, addr := 0, fpHash := List.replicate 48 9,
    pub := List.replicate 64 9, priv := [], hasPrivate := false }

set_option maxRecDepth 20000 in
/-- C4 (counterexample): `unmarshal` accepts a byte sequence whose 5-byte
address field encodes 0 — a reserved address — so deserialization does
not enforce the reserved-address invariant. -/
theorem unmarshal_accepts_reserved_address :
    Identity.unmarshal cryptoToy c4bytes = some (c4id, 71) ∧
    isReserved c4id.addr = true := by
  constructor
  · rfl
  · rfl

set_option maxRecDepth 20000 in
/-- Witness for the amended C4: a concrete accepted string whose parsed
address is not reserved. -/
theorem fromString_addr_not_reserved_witness :
    Identity.fromString cryptoToy
      (c10addr ++ ':' :: '0' :: ':' :: c10pubhex) =
      some { type := .c25519, addr := 0xaabbccddee,
             fpHash := List.replicate 48 0, pub := List.replicate 64 0,
             priv := [], hasPrivate := false } ∧
    isReserved
      ({ type := .c25519, addr := 0xaabbccddee,
         fpHash := List.replicate 48 0, pub := List.replicate 64 0,
         priv := [], hasPrivate := false } : Identity).addr = false := by
  constructor
  · rfl
  · exact fromString_addr_not_reserved cryptoToy
      (c10addr ++ ':' :: '0' :: ':' :: c10pubhex) _ (by rfl)

theorem parse3_addr_eq {cr : Crypto} {f0 f1 f2 : List Char} {p : Identity}
    (h : parse3 cr f0 f1 f2 = some p) :
    p.addr = hexStrToU64 f0 0 % 1099511627776 := by
  simp only [parse3] at h
  split at h
  · exact absurd h (by simp)
  · split at h
    · exact absurd h (by simp)
    · split at h
      · exact absurd h (by simp)
      · cases h; rfl

theorem fromStringTokens_addr_eq {cr : Crypto} {l : List (List Char)}
    {id : Identity} (h : fromStringTokens cr l = some id) :
    id.addr = hexStrToU64 (l.getD 0 []) 0 % 1099511627776 := by
  unfold fromStringTokens at h
  split at h
  · rename_i f0 f1 f2
    cases hp : parse3 cr f0 f1 f2 <;> rw [hp] at h
    · exact absurd h (by simp)
    · simp only [Option.some_bind] at h
      rw [finalCheck_some h]
      exact parse3_addr_eq hp
  · rename_i f0 f1 f2 f3
    cases hp : parse3 cr f0 f1 f2 <;> rw [hp] at h
    · exact absurd h (by simp)
    · rename_i p
      simp only [Option.some_bind] at h
      split at h
      · rw [finalCheck_some h]
        exact parse3_addr_eq hp
      · split at h
        · exact absurd h (by simp)
        · have := finalCheck_some h
          subst this
          simpa using parse3_addr_eq hp
  · exact absurd h (by simp)

theorem getD_take4_head {l : List (List Char)} :
    (l.take 4).getD 0 [] = l.getD 0 [] := by
  cases l <;> rfl

/-- C9 (amended): `fromString` does not validate the length or character
class of the address field.  For every accepted string the resulting
address is the value of the leading hexadecimal digits of the first
colon-delimited field, masked to 40 bits, and the only constraint imposed
on it is that it is not reserved (plus, for type 1, the fingerprint
match). -/
theorem fromString_first_field_semantics (cr : Crypto) (s : List Char)
    (id : Identity) (h : Identity.fromString cr s = some id) :
    id.addr = hexStrToU64 ((stok s).getD 0 []) 0 % 1099511627776 ∧
    isReserved id.addr = false := by
  constructor
  · rw [← getD_take4_head]
    exact fromStringTokens_addr_eq h
  · exact fromStringTokens_addr_not_reserved h

/-- Textual identity whose first field is the single character 1 (not ten
lowercase hex digits). -/
def c9str : List Char := '1' :: ':' :: '0' :: ':' :: c10pubhex

/-- Identity parsed from `c9str`. -/
def c9id : Identity :=
  { type := .c25519, addr := 1, fpHash := List.replicate 48 0,
    pub := List.replicate 64 0, priv := [], hasPrivate := false }

set_option maxRecDepth 20000 in
/-- C9 (counterexample): `fromString` accepts an input whose first
colon-delimited field has length 1, so acceptance does not require the
first field to consist of exactly ten lowercase hex digits. -/
theorem fromString_accepts_short_address_field :
    Identity.fromString cryptoToy c9str = some c9id ∧
    ((stok c9str).getD 0 []).length = 1 := by
  exact ⟨rfl, rfl⟩

set_option maxRecDepth 20000 in
/-- Witness for the amended C9 at the concrete short-field input. -/
theorem fromString_first_field_semantics_witness :
    c9id.addr = hexStrToU64 ((stok c9str).getD 0 []) 0 % 1099511627776 ∧
    isReserved c9id.addr = false :=
  fromString_first_field_semantics cryptoToy c9str c9id (by rfl)

set_option maxRecDepth 20000 in
/-- Witness for C10 at a concrete input. -/
theorem fromString_len1_private_field_ignored_witness :
    stok c10str = [c10addr, ['0'], c10pubhex, ['q']] ∧
    Identity.fromString cryptoToy c10str =
      fromStringTokens cryptoToy [c10addr, ['0'], c10pubhex] ∧
    Option.all (fun id => !id.hasPrivate)
      (Identity.fromString cryptoToy c10str) = true := by
  refine ⟨by rfl, ?_, ?_⟩
  · exact (fromString_len1_private_field_ignored cryptoToy c10str
      c10addr ['0'] c10pubhex ['q'] (by rfl) (by rfl)).1
  · exact (fromString_len1_private_field_ignored cryptoToy c10str
      c10addr ['0'] c10pubhex ['q'] (by rfl) (by rfl)).2

/-- C3: `locallyValidate` returns true if and only if the stored address
is non-reserved and the type-specific §3 invariants hold: for C25519,
re-running the V0 proof of work on the 64-byte public key yields a digest
whose bytes 59..64 equal the address and whose first byte is below 17;
for P384, the address equals the last 5 bytes of SHA-384 of the public
blob and the V1 proof of work accepts the public blob.  The hypothesis is
the §3 data-model invariant that the stored fingerprint hash is the
SHA-384 of the public blob (every constructed identity satisfies it). -/
theorem locallyValidate_iff_invariants (cr : Crypto) (id : Identity)
    (hhash : id.fpHash = computeHash cr id.type id.pub) :
    Identity.locallyValidate cr id = true ↔
      (isReserved id.addr = false ∧
        match id.type with
        | .c25519 =>
          addrOfBytes (slice (identityV0ProofOfWorkFrankenhash cr
            (padTake 64 id.pub)) 59 5) = id.addr ∧
          (identityV0ProofOfWorkFrankenhash cr (padTake 64 id.pub)).getD 0 0 < 17
        | .p384 =>
          addrOfHash (cr.sha384 (padTake 114 id.pub)) = id.addr ∧
          identityV1ProofOfWorkCriteria cr (padTake 114 id.pub) = true) := by
  obtain ⟨t, a, fh, pub, priv, hp⟩ := id
  simp only at hhash
  have hres0 : isReserved 0 = true := rfl
  cases t
  case c25519 =>
    simp only [Identity.locallyValidate]
    split_ifs with hg
    · rw [Bool.and_eq_true, bne_iff_ne, Bool.not_eq_true'] at hg
      simp only [Bool.and_eq_true, beq_iff_eq, decide_eq_true_eq]
      constructor
      · rintro ⟨h1, h2⟩; exact ⟨hg.2, h1, h2⟩
      · rintro ⟨_, h1, h2⟩; exact ⟨h1, h2⟩
    · rw [Bool.and_eq_true, bne_iff_ne, Bool.not_eq_true'] at hg
      constructor
      · intro h; exact absurd h (by simp)
      · rintro ⟨hres, _⟩
        exfalso
        apply hg
        refine ⟨fun h0 => ?_, hres⟩
        rw [h0, hres0] at hres
        cases hres
  case p384 =>
    simp only [computeHash] at hhash
    subst hhash
    simp only [Identity.locallyValidate]
    split_ifs with hg hne
    · rw [Bool.and_eq_true, bne_iff_ne, Bool.not_eq_true'] at hg
      rw [bne_iff_ne] at hne
      constructor
      · intro h; exact absurd h (by simp)
      · rintro ⟨_, heq, _⟩
        exact absurd heq hne
    · rw [Bool.and_eq_true, bne_iff_ne, Bool.not_eq_true'] at hg
      rw [bne_iff_ne, not_not] at hne
      constructor
      · intro h; exact ⟨hg.2, hne, h⟩
      · rintro ⟨_, _, h⟩; exact h
    · rw [Bool.and_eq_true, bne_iff_ne, Bool.not_eq_true'] at hg
      constructor
      · intro h; exact absurd h (by simp)
      · rintro ⟨hres, _, _⟩
        exfalso
        apply hg
        refine ⟨fun h0 => ?_, hres⟩
        rw [h0, hres0] at hres
        cases hres

/-- Concrete C25519 identity with a consistent fingerprint hash. -/
def c3id : Identity :=
  { type := .c25519, addr := 1,
    fpHash := computeHash cryptoToy .c25519 (List.replicate 64 3),
    pub := List.replicate 64 3, priv := [], hasPrivate := false }

/-- Witness for C3 at a concrete identity. -/
theorem locallyValidate_iff_invariants_witness :
    c3id.fpHash = computeHash cryptoToy c3id.type c3id.pub ∧
    (Identity.locallyValidate cryptoToy c3id = true ↔
      (isReserved c3id.addr = false ∧
        addrOfBytes (slice (identityV0ProofOfWorkFrankenhash cryptoToy
          (padTake 64 c3id.pub)) 59 5) = c3id.addr ∧
        (identityV0ProofOfWorkFrankenhash cryptoToy
          (padTake 64 c3id.pub)).getD 0 0 < 17)) :=
  ⟨rfl, locallyValidate_iff_invariants cryptoToy c3id rfl⟩

/-!
## P384 key-material offsets (claims C1, C6, C7)

`Identity::generate` writes the ECC384 private key at
`m_priv + ZT_C25519_COMBINED_PRIVATE_KEY_SIZE` = byte 64, while
`Identity::sign` reads the ECDSA scalar at
`m_priv + 1 + ZT_C25519_COMBINED_PUBLIC_KEY_SIZE` = byte 65 of the
113-byte `1 + 64 + 48` compound private blob; and `Identity::agree`
passes the full compound blobs to the C25519 agreement without skipping
the leading nonce byte.  The demonstrations below instantiate the
abstract primitives with stand-ins that are correct for true key pairs,
and exhibit the resulting identity-layer failures at generate-shaped
identities.
-/

/-- Demo combined C25519 private key (P384 identity). -/
def c1cpriv : Bytes := List.replicate 64 2

/-- Demo ECC384 private scalar. -/
def c1epriv : Bytes := List.replicate 48 3

/-- Demo P384 identity laid out exactly as `Identity::generate` does,
with true key pairs of `cryptoC1`. -/
def c1id : Identity :=
  genP384 cryptoC1 0 (incBytes c1cpriv) c1cpriv (7 :: incBytes c1epriv) c1epriv

/-- Demo message. -/
def c1data : Bytes := [42]

/-- C1 (failing evaluation): under primitives whose ECDSA is correct for
true key pairs — the first conjunct checks `verify (sign ...)` succeeds at
the very key pair and hash in play — a generate-shaped P384 identity
signs with the byte-shifted scalar `m_priv[65..113)` while its ECC384 key
was written at `m_priv[64..112)`, so `verify(data, sign(data))` is false. -/
theorem p384_sign_verify_roundtrip_fails :
    cryptoC1.ecdsa_verify (7 :: incBytes c1epriv)
      (cryptoC1.sha384 (c1data ++ padTake 114 c1id.pub))
      (cryptoC1.ecdsa_sign c1epriv
        (cryptoC1.sha384 (c1data ++ padTake 114 c1id.pub))) = true ∧
    (Identity.sign cryptoC1 c1id c1data 96).1 = 96 ∧
    Identity.verify cryptoC1 c1id c1data
      (Identity.sign cryptoC1 c1id c1data 96).2 96 = false := by
  decide

/-- Demo C25519 identity (private key all zero bytes, public key its
byte-wise increment, i.e. a true `cryptoDH` key pair). -/
def c7a : Identity :=
  { type := .c25519, addr := 9,
    fpHash := computeHash cryptoDH .c25519 (incBytes (List.replicate 64 0)),
    pub := incBytes (List.replicate 64 0),
    priv := List.replicate 64 0, hasPrivate := true }

/-- Demo combined C25519 private key of the P384 peer. -/
def c7cpriv : Bytes := List.replicate 64 9

/-- Demo P384 identity laid out exactly as `Identity::generate` does,
with true key pairs of `cryptoDH`. -/
def c7b : Identity :=
  genP384 cryptoDH 0 (incBytes c7cpriv) c7cpriv
    (7 :: incBytes (List.replicate 48 4)) (List.replicate 48 4)

/-- C6 (failing evaluation): cross-type agreement succeeds but the key is
NOT the C25519-halves agreement the claim describes: the code passes the
P384 peer's full public blob to the C25519 agreement, so the DH point
bytes are the nonce byte followed by the first 31 bytes of the C25519
half instead of the half itself. -/
theorem agree_cross_type_not_c25519_halves :
    (Identity.agree cryptoDH c7a c7b).isSome = true ∧
    Identity.agree cryptoDH c7a c7b ≠
      some ((cryptoDH.sha512 (padTake 32 (cryptoDH.x25519 (c7a.priv.take 32)
        ((slice c7b.pub 1 64).take 32)))).take 48) := by
  decide

/-- C7 (failing evaluation): under a DH primitive that is symmetric for
true key pairs — the first conjunct checks the symmetry at the two key
pairs in play — agreement between a C25519 identity and a generate-shaped
P384 identity succeeds on both sides but produces different keys, because
each side's C25519 inputs are taken at the wrong offsets of the compound
blobs. -/
theorem agree_not_symmetric_cross_type :
    cryptoDH.x25519 (List.replicate 64 0) (incBytes c7cpriv) =
      cryptoDH.x25519 c7cpriv (incBytes (List.replicate 64 0)) ∧
    (Identity.agree cryptoDH c7a c7b).isSome = true ∧
    (Identity.agree cryptoDH c7b c7a).isSome = true ∧
    Identity.agree cryptoDH c7a c7b ≠ Identity.agree cryptoDH c7b c7a := by
  decide

/-!
## Hex codec lemmas (towards the round-trip claim C5)
-/

theorem hexVal_hexDigitChar {v : Nat} (h : v < 16) :
    hexVal (hexDigitChar v) = some v := by
  interval_cases v <;> decide

theorem hexDigitChar_ne_colon {v : Nat} (h : v < 16) :
    hexDigitChar v ≠ ':' := by
  interval_cases v <;> decide

theorem hexChars_length (b : Bytes) : (hexChars b).length = 2 * b.length := by
  induction b with
  | nil => rfl
  | cons x r ih => simp [hexChars] at ih ⊢; omega

theorem mem_hexChars {c : Char} {b : Bytes} (h : c ∈ hexChars b) :
    ∃ v, v < 16 ∧ c = hexDigitChar v := by
  induction b with
  | nil => cases h
  | cons x r ih =>
    simp only [hexChars, List.foldr_cons, List.mem_cons] at h
    rcases h with h | h | h
    · exact ⟨x / 16 % 16, by omega, h⟩
    · exact ⟨x % 16, by omega, h⟩
    · exact ih h

theorem hexChars_ne_colon {c : Char} {b : Bytes} (h : c ∈ hexChars b) :
    c ≠ ':' := by
  obtain ⟨v, hv, rfl⟩ := mem_hexChars h
  exact hexDigitChar_ne_colon hv

theorem unhexChars_hexChars {b : Bytes} (hb : ∀ x ∈ b, x < 256) :
    unhexChars (hexChars b) = some b := by
  induction b with
  | nil => rfl
  | cons x r ih =>
    have hx : x < 256 := hb x (by simp)
    have ihr := ih (fun y hy => hb y (by simp [hy]))
    simp only [hexChars, List.foldr_cons]
    show unhexChars (hexDigitChar (x / 16 % 16) :: hexDigitChar (x % 16) ::
      hexChars r) = some (x :: r)
    unfold unhexChars
    rw [hexVal_hexDigitChar (by omega), hexVal_hexDigitChar (by omega), ihr]
    show some ((x / 16 % 16 * 16 + x % 16) :: r) = some (x :: r)
    have hxx : x / 16 % 16 * 16 + x % 16 = x := by omega
    rw [hxx]

theorem addrOfBytes_addrToBytes {a : Nat} (h : a < 1099511627776) :
    addrOfBytes (addrToBytes a) = a := by
  simp [addrOfBytes, addrToBytes]
  omega

theorem length_addrToBytes (a : Nat) : (addrToBytes a).length = 5 := rfl

theorem addrHex10_length (a : Nat) : (addrHex10 a).length = 10 := by
  simp [addrHex10]

theorem addrHex10_ne_colon {c : Char} {a : Nat} (h : c ∈ addrHex10 a) :
    c ≠ ':' := by
  simp only [addrHex10, List.mem_map] at h
  obtain ⟨k, _, rfl⟩ := h
  exact hexDigitChar_ne_colon (by omega)

theorem hexStrToU64_cons {c : Char} {r : List Char} {acc v acc2 : Nat}
    (h : hexVal c = some v)
    (hacc : (acc * 16 + v) % 18446744073709551616 = acc2) :
    hexStrToU64 (c :: r) acc = hexStrToU64 r acc2 := by
  simp only [hexStrToU64, h, hacc]

theorem hexStrToU64_addrHex10 {a : Nat} (h : a < 1099511627776) :
    hexStrToU64 (addrHex10 a) 0 = a := by
  have e : addrHex10 a =
      [hexDigitChar (a / 68719476736 % 16), hexDigitChar (a / 4294967296 % 16),
       hexDigitChar (a / 268435456 % 16), hexDigitChar (a / 16777216 % 16),
       hexDigitChar (a / 1048576 % 16), hexDigitChar (a / 65536 % 16),
       hexDigitChar (a / 4096 % 16), hexDigitChar (a / 256 % 16),
       hexDigitChar (a / 16 % 16), hexDigitChar (a % 16)] := by
    simp [addrHex10, List.range_succ]
  rw [e,
    hexStrToU64_cons (hexVal_hexDigitChar (by omega))
      (show (0 * 16 + a / 68719476736 % 16) % 18446744073709551616 =
        a / 68719476736 by omega),
    hexStrToU64_cons (hexVal_hexDigitChar (by omega))
      (show (a / 68719476736 * 16 + a / 4294967296 % 16) %
        18446744073709551616 = a / 4294967296 by omega),
    hexStrToU64_cons (hexVal_hexDigitChar (by omega))
      (show (a / 4294967296 * 16 + a / 268435456 % 16) %
        18446744073709551616 = a / 268435456 by omega),
    hexStrToU64_cons (hexVal_hexDigitChar (by omega))
      (show (a / 268435456 * 16 + a / 16777216 % 16) %
        18446744073709551616 = a / 16777216 by omega),
    hexStrToU64_cons (hexVal_hexDigitChar (by omega))
      (show (a / 16777216 * 16 + a / 1048576 % 16) %
        18446744073709551616 = a / 1048576 by omega),
    hexStrToU64_cons (hexVal_hexDigitChar (by omega))
      (show (a / 1048576 * 16 + a / 65536 % 16) %
        18446744073709551616 = a / 65536 by omega),
    hexStrToU64_cons (hexVal_hexDigitChar (by omega))
      (show (a / 65536 * 16 + a / 4096 % 16) %
        18446744073709551616 = a / 4096 by omega),
    hexStrToU64_cons (hexVal_hexDigitChar (by omega))
      (show (a / 4096 * 16 + a / 256 % 16) %
        18446744073709551616 = a / 256 by omega),
    hexStrToU64_cons (hexVal_hexDigitChar (by omega))
      (show (a / 256 * 16 + a / 16 % 16) %
        18446744073709551616 = a / 16 by omega),
    hexStrToU64_cons (hexVal_hexDigitChar (by omega))
      (show (a / 16 * 16 + a % 16) %
        18446744073709551616 = a by omega)]
  rfl

/-!
## Wire layout lemmas
-/

theorem layout_take5 (a : Nat) (rest : Bytes) :
    (addrToBytes a ++ rest).take 5 = addrToBytes a :=
  List.take_left' rfl

theorem layout_getD5 (a x : Nat) (rest : Bytes) :
    (addrToBytes a ++ (x :: rest)).getD 5 0 = x := by
  rw [List.getD_append_right _ _ _ _ (by simp [addrToBytes])]
  simp [addrToBytes]

theorem layout_length (a x y : Nat) (pub priv : Bytes) :
    (addrToBytes a ++ (x :: (pub ++ (y :: priv)))).length =
      7 + pub.length + priv.length := by
  simp [addrToBytes]
  omega

theorem layout_slice6 (a x : Nat) (pub rest : Bytes) :
    slice (addrToBytes a ++ (x :: (pub ++ rest))) 6 pub.length = pub := by
  unfold slice
  rw [show addrToBytes a ++ (x :: (pub ++ rest)) =
    (addrToBytes a ++ [x]) ++ (pub ++ rest) by simp]
  rw [show (6 : Nat) = (addrToBytes a ++ [x]).length + 0 by simp [addrToBytes]]
  rw [List.drop_append]
  simp [List.take_left]

theorem layout_getD_after (a x y : Nat) (pub rest : Bytes) :
    (addrToBytes a ++ (x :: (pub ++ (y :: rest)))).getD (6 + pub.length) 0 =
      y := by
  rw [show addrToBytes a ++ (x :: (pub ++ (y :: rest))) =
    (addrToBytes a ++ (x :: pub)) ++ (y :: rest) by simp]
  rw [List.getD_append_right _ _ _ _ (by simp [addrToBytes]; omega)]
  rw [show 6 + pub.length - (addrToBytes a ++ (x :: pub)).length = 0 by
    simp [addrToBytes]; omega]
  rfl

theorem layout_slice_priv (a x y : Nat) (pub priv : Bytes) :
    slice (addrToBytes a ++ (x :: (pub ++ (y :: priv)))) (7 + pub.length)
      priv.length = priv := by
  unfold slice
  rw [show addrToBytes a ++ (x :: (pub ++ (y :: priv))) =
    (addrToBytes a ++ (x :: (pub ++ [y]))) ++ priv by simp]
  rw [show 7 + pub.length = (addrToBytes a ++ (x :: (pub ++ [y]))).length + 0 by
    simp [addrToBytes]; omega]
  rw [List.drop_append]
  simp

/-!
## Validity shape for the round-trip claim (spec §3 invariants)
-/

/-- Bytes of real memory are below 256. -/
def AllBytes (b : Bytes) : Prop := ∀ x ∈ b, x < 256

/-- Shape invariants of §3 for a constructed identity: non-reserved
40-bit address, byte-valued blobs of the sizes fixed by the type, the
fingerprint hash consistent with the public blob, an absent private blob
modelled as `[]`, and (for P384) the address embedded in the fingerprint
hash. -/
def ValidShape (cr : Crypto) (id : Identity) : Prop :=
  isReserved id.addr = false ∧ id.addr < 1099511627776 ∧
  AllBytes id.pub ∧ AllBytes id.priv ∧
  id.fpHash = computeHash cr id.type id.pub ∧
  (id.hasPrivate = false → id.priv = []) ∧
  (match id.type with
   | .c25519 =>
     id.pub.length = 64 ∧ (id.hasPrivate = true → id.priv.length = 64)
   | .p384 =>
     id.pub.length = 114 ∧ (id.hasPrivate = true → id.priv.length = 113) ∧
     addrOfHash id.fpHash = id.addr)

/-!
## Tokeniser lemmas
-/

theorem stokGo_colonfree {xs : List Char} (hcf : ∀ c ∈ xs, c ≠ ':') :
    ∀ (cur l : List Char), stokGo cur (xs ++ l) = stokGo (xs.reverse ++ cur) l := by
  induction xs with
  | nil => intro cur l; simp
  | cons c r ih =>
    intro cur l
    have hc : c ≠ ':' := hcf c (by simp)
    simp only [List.cons_append, stokGo, List.append_eq]
    rw [if_neg hc]
    rw [ih (fun x hx => hcf x (by simp [hx])) (c :: cur) l]
    congr 1
    simp

theorem stok_field {xs : List Char} (rest : List Char) (hne : xs ≠ [])
    (hcf : ∀ c ∈ xs, c ≠ ':') :
    stok (xs ++ ':' :: rest) = xs :: stok rest := by
  unfold stok
  rw [stokGo_colonfree hcf [] (':' :: rest)]
  rw [List.append_nil]
  show (if ':' = ':' then
    if xs.reverse = [] then stokGo [] rest
    else xs.reverse.reverse :: stokGo [] rest else _) = _
  rw [if_pos rfl, if_neg (by simpa using hne), List.reverse_reverse]

theorem stok_last {xs : List Char} (hne : xs ≠ [])
    (hcf : ∀ c ∈ xs, c ≠ ':') : stok xs = [xs] := by
  unfold stok
  have h := stokGo_colonfree hcf [] []
  rw [List.append_nil, List.append_nil] at h
  rw [h]
  show (if xs.reverse = [] then [] else [xs.reverse.reverse]) = [xs]
  rw [if_neg (by simpa using hne), List.reverse_reverse]

theorem unmarshal_marshal (cr : Crypto) (id : Identity)
    (hv : ValidShape cr id) :
    Identity.unmarshal cr (Identity.marshal id true) =
      some (id, (Identity.marshal id true).length) := by
  obtain ⟨t, a, fh, pub, priv, hp⟩ := id
  obtain ⟨hres, ha, hbp, hbs, hfh, hpe, hty⟩ := hv
  simp only at hres ha hbp hbs hfh hpe hty
  cases t
  case c25519 =>
    obtain ⟨hpl, hsl⟩ := hty
    cases hp
    case false =>
      have hpriv : priv = [] := hpe rfl
      subst hpriv
      have hm : Identity.marshal ⟨IdType.c25519, a, fh, pub, [], false⟩ true =
          addrToBytes a ++ (0 :: (pub ++ (0 :: []))) := by
        simp [Identity.marshal, padTake_eq_self hpl]
      rw [hm]
      have hL : (addrToBytes a ++ (0 :: (pub ++ (0 :: [])))).length = 71 := by
        rw [layout_length]; simp [hpl]
      have hs6 := layout_slice6 a 0 pub (0 :: [])
      rw [hpl] at hs6
      have hg70 := layout_getD_after a 0 0 pub []
      rw [hpl] at hg70
      simp only [(by norm_num : (6 : Nat) + 64 = 70)] at hg70
      unfold Identity.unmarshal
      rw [hL, layout_take5, layout_getD5, hs6, hg70]
      norm_num
      simp [addrOfBytes_addrToBytes ha, hfh]
    case true =>
      have hsl64 : priv.length = 64 := hsl rfl
      have hm : Identity.marshal ⟨IdType.c25519, a, fh, pub, priv, true⟩ true =
          addrToBytes a ++ (0 :: (pub ++ (64 :: priv))) := by
        simp [Identity.marshal, padTake_eq_self hpl, padTake_eq_self hsl64]
      rw [hm]
      have hL : (addrToBytes a ++ (0 :: (pub ++ (64 :: priv)))).length =
          135 := by
        rw [layout_length]; simp [hpl, hsl64]
      have hs6 := layout_slice6 a 0 pub (64 :: priv)
      rw [hpl] at hs6
      have hg70 := layout_getD_after a 0 64 pub priv
      rw [hpl] at hg70
      simp only [(by norm_num : (6 : Nat) + 64 = 70)] at hg70
      have hs71 := layout_slice_priv a 0 64 pub priv
      rw [hpl, hsl64] at hs71
      simp only [(by norm_num : (7 : Nat) + 64 = 71)] at hs71
      unfold Identity.unmarshal
      rw [hL, layout_take5, layout_getD5, hs6, hg70, hs71]
      norm_num
      simp [addrOfBytes_addrToBytes ha, hfh]
  case p384 =>
    obtain ⟨hpl, hsl, haddr⟩ := hty
    cases hp
    case false =>
      have hpriv : priv = [] := hpe rfl
      subst hpriv
      have hm : Identity.marshal ⟨IdType.p384, a, fh, pub, [], false⟩ true =
          addrToBytes a ++ (1 :: (pub ++ (0 :: []))) := by
        simp [Identity.marshal, padTake_eq_self hpl]
      rw [hm]
      have hL : (addrToBytes a ++ (1 :: (pub ++ (0 :: [])))).length = 121 := by
        rw [layout_length]; simp [hpl]
      have hs6 := layout_slice6 a 1 pub (0 :: [])
      rw [hpl] at hs6
      have hg120 := layout_getD_after a 1 0 pub []
      rw [hpl] at hg120
      simp only [(by norm_num : (6 : Nat) + 114 = 120)] at hg120
      have hck : addrOfHash (computeHash cr IdType.p384 pub) =
          addrOfBytes (addrToBytes a) := by
        rw [← hfh, addrOfBytes_addrToBytes ha]; exact haddr
      unfold Identity.unmarshal
      rw [hL, layout_take5, layout_getD5, hs6, hg120]
      norm_num
      exact ⟨hck, addrOfBytes_addrToBytes ha, hfh.symm⟩
    case true =>
      have hsl113 : priv.length = 113 := hsl rfl
      have hm : Identity.marshal ⟨IdType.p384, a, fh, pub, priv, true⟩ true =
          addrToBytes a ++ (1 :: (pub ++ (113 :: priv))) := by
        simp [Identity.marshal, padTake_eq_self hpl, padTake_eq_self hsl113]
      rw [hm]
      have hL : (addrToBytes a ++ (1 :: (pub ++ (113 :: priv)))).length =
          234 := by
        rw [layout_length]; simp [hpl, hsl113]
      have hs6 := layout_slice6 a 1 pub (113 :: priv)
      rw [hpl] at hs6
      have hg120 := layout_getD_after a 1 113 pub priv
      rw [hpl] at hg120
      simp only [(by norm_num : (6 : Nat) + 114 = 120)] at hg120
      have hs121 := layout_slice_priv a 1 113 pub priv
      rw [hpl, hsl113] at hs121
      simp only [(by norm_num : (7 : Nat) + 114 = 121)] at hs121
      have hck : addrOfHash (computeHash cr IdType.p384 pub) =
          addrOfBytes (addrToBytes a) := by
        rw [← hfh, addrOfBytes_addrToBytes ha]; exact haddr
      unfold Identity.unmarshal
      rw [hL, layout_take5, layout_getD5, hs6, hg120, hs121]
      norm_num
      exact ⟨hck, addrOfBytes_addrToBytes ha, hfh.symm⟩

theorem addrHex10_ne_nil (a : Nat) : addrHex10 a ≠ [] := by
  intro h
  have hl := addrHex10_length a
  rw [h] at hl
  cases hl

theorem hexChars_ne_nil {b : Bytes} (hb : b.length ≠ 0) : hexChars b ≠ [] := by
  intro h
  have hl := hexChars_length b
  rw [h] at hl
  simp only [List.length_nil] at hl
  omega

theorem parse3_c25519 (cr : Crypto) {a : Nat} {pub : Bytes}
    (ha : a < 1099511627776) (hres : isReserved a = false)
    (hbp : AllBytes pub) (hpl : pub.length = 64) :
    parse3 cr (addrHex10 a) ['0'] (hexChars pub) =
      some ⟨IdType.c25519, a, computeHash cr IdType.c25519 pub, pub, [],
        false⟩ := by
  unfold parse3
  rw [hexStrToU64_addrHex10 ha, Nat.mod_eq_of_lt ha]
  simp [hres, parseType, parsePub, unhexChars_hexChars hbp, hpl]

theorem parse3_p384 (cr : Crypto) {a : Nat} {pub : Bytes}
    (ha : a < 1099511627776) (hres : isReserved a = false)
    (hb32p : cr.b32d (cr.b32e pub) = pub) (hpl : pub.length = 114) :
    parse3 cr (addrHex10 a) ['1'] (cr.b32e pub) =
      some ⟨IdType.p384, a, computeHash cr IdType.p384 pub, pub, [],
        false⟩ := by
  unfold parse3
  rw [hexStrToU64_addrHex10 ha, Nat.mod_eq_of_lt ha]
  simp [hres, parseType, parsePub, hb32p, hpl]

theorem toString_fromString (cr : Crypto) (id : Identity)
    (hv : ValidShape cr id)
    (hb32p : cr.b32d (cr.b32e id.pub) = id.pub)
    (hb32pc : ∀ c ∈ cr.b32e id.pub, c ≠ ':')
    (hb32pn : cr.b32e id.pub ≠ [])
    (hb32s : cr.b32d (cr.b32e id.priv) = id.priv)
    (hb32sc : ∀ c ∈ cr.b32e id.priv, c ≠ ':')
    (hb32sn : 1 < (cr.b32e id.priv).length) :
    (Identity.toString cr id true).bind (Identity.fromString cr) = some id := by
  obtain ⟨t, a, fh, pub, priv, hp⟩ := id
  obtain ⟨hres, ha, hbp, hbs, hfh, hpe, hty⟩ := hv
  simp only at hres ha hbp hbs hfh hpe hty hb32p hb32pc hb32pn hb32s hb32sc hb32sn
  cases t
  case c25519 =>
    obtain ⟨hpl, hsl⟩ := hty
    have hpne : pub.length ≠ 0 := by omega
    cases hp
    case false =>
      have hpriv : priv = [] := hpe rfl
      subst hpriv
      have hts : Identity.toString cr
          (⟨IdType.c25519, a, fh, pub, [], false⟩ : Identity) true =
          some (addrHex10 a ++ ':' :: '0' :: ':' :: hexChars pub) := by
        simp [Identity.toString, padTake_eq_self hpl]
      rw [hts, Option.some_bind]
      unfold Identity.fromString
      rw [show addrHex10 a ++ ':' :: '0' :: ':' :: hexChars pub =
        addrHex10 a ++ ':' :: (['0'] ++ ':' :: hexChars pub) from rfl]
      rw [stok_field _ (addrHex10_ne_nil a) (fun c hc => addrHex10_ne_colon hc)]
      rw [stok_field _ (by simp) (by intro c hc; simp at hc; subst hc; decide)]
      rw [stok_last (hexChars_ne_nil hpne) (fun c hc => hexChars_ne_colon hc)]
      show fromStringTokens cr [addrHex10 a, ['0'], hexChars pub] = _
      simp only [fromStringTokens]
      rw [parse3_c25519 cr ha hres hbp hpl, Option.some_bind]
      simp [finalCheck, hfh]
    case true =>
      have hsl64 : priv.length = 64 := hsl rfl
      have hsne : priv.length ≠ 0 := by omega
      have hts : Identity.toString cr
          (⟨IdType.c25519, a, fh, pub, priv, true⟩ : Identity) true =
          some (addrHex10 a ++ ':' :: '0' :: ':' ::
            (hexChars pub ++ ':' :: hexChars priv)) := by
        simp [Identity.toString, padTake_eq_self hpl, padTake_eq_self hsl64]
      rw [hts, Option.some_bind]
      unfold Identity.fromString
      rw [show addrHex10 a ++ ':' :: '0' :: ':' ::
          (hexChars pub ++ ':' :: hexChars priv) =
        addrHex10 a ++ ':' ::
          (['0'] ++ ':' :: (hexChars pub ++ ':' :: hexChars priv)) from rfl]
      rw [stok_field _ (addrHex10_ne_nil a) (fun c hc => addrHex10_ne_colon hc)]
      rw [stok_field _ (by simp) (by intro c hc; simp at hc; subst hc; decide)]
      rw [stok_field _ (hexChars_ne_nil hpne) (fun c hc => hexChars_ne_colon hc)]
      rw [stok_last (hexChars_ne_nil hsne) (fun c hc => hexChars_ne_colon hc)]
      show fromStringTokens cr
        [addrHex10 a, ['0'], hexChars pub, hexChars priv] = _
      simp only [fromStringTokens]
      rw [parse3_c25519 cr ha hres hbp hpl, Option.some_bind]
      have hlen : ¬((hexChars priv).length ≤ 1) := by
        rw [hexChars_length, hsl64]; omega
      rw [if_neg hlen]
      have hps : parsePriv cr IdType.c25519 (hexChars priv) = some priv := by
        simp [parsePriv, unhexChars_hexChars hbs, hsl64]
      simp only [hps]
      simp [finalCheck, hfh]
  case p384 =>
    obtain ⟨hpl, hsl, haddr⟩ := hty
    have hck : addrOfHash (computeHash cr IdType.p384 pub) = a := by
      rw [← hfh]; exact haddr
    cases hp
    case false =>
      have hpriv : priv = [] := hpe rfl
      subst hpriv
      have hts : Identity.toString cr
          (⟨IdType.p384, a, fh, pub, [], false⟩ : Identity) true =
          some (addrHex10 a ++ ':' :: '1' :: ':' :: cr.b32e pub) := by
        simp [Identity.toString, padTake_eq_self hpl, hb32pn]
      rw [hts, Option.some_bind]
      unfold Identity.fromString
      rw [show addrHex10 a ++ ':' :: '1' :: ':' :: cr.b32e pub =
        addrHex10 a ++ ':' :: (['1'] ++ ':' :: cr.b32e pub) from rfl]
      rw [stok_field _ (addrHex10_ne_nil a) (fun c hc => addrHex10_ne_colon hc)]
      rw [stok_field _ (by simp) (by intro c hc; simp at hc; subst hc; decide)]
      rw [stok_last hb32pn (fun c hc => hb32pc c hc)]
      show fromStringTokens cr [addrHex10 a, ['1'], cr.b32e pub] = _
      simp only [fromStringTokens]
      rw [parse3_p384 cr ha hres hb32p hpl, Option.some_bind]
      simp [finalCheck, hck, hfh]
    case true =>
      have hsl113 : priv.length = 113 := hsl rfl
      have hb32sn' : cr.b32e priv ≠ [] := by
        intro h; rw [h] at hb32sn; simp at hb32sn
      have hts : Identity.toString cr
          (⟨IdType.p384, a, fh, pub, priv, true⟩ : Identity) true =
          some (addrHex10 a ++ ':' :: '1' :: ':' ::
            (cr.b32e pub ++ ':' :: cr.b32e priv)) := by
        simp [Identity.toString, padTake_eq_self hpl, padTake_eq_self hsl113,
          hb32pn, hb32sn']
      rw [hts, Option.some_bind]
      unfold Identity.fromString
      rw [show addrHex10 a ++ ':' :: '1' ::
          ':' :: (cr.b32e pub ++ ':' :: cr.b32e priv) =
        addrHex10 a ++ ':' ::
          (['1'] ++ ':' :: (cr.b32e pub ++ ':' :: cr.b32e priv)) from rfl]
      rw [stok_field _ (addrHex10_ne_nil a) (fun c hc => addrHex10_ne_colon hc)]
      rw [stok_field _ (by simp) (by intro c hc; simp at hc; subst hc; decide)]
      rw [stok_field _ hb32pn (fun c hc => hb32pc c hc)]
      rw [stok_last hb32sn' (fun c hc => hb32sc c hc)]
      show fromStringTokens cr
        [addrHex10 a, ['1'], cr.b32e pub, cr.b32e priv] = _
      simp only [fromStringTokens]
      rw [parse3_p384 cr ha hres hb32p hpl, Option.some_bind]
      have hlen : ¬((cr.b32e priv).length ≤ 1) := by omega
      rw [if_neg hlen]
      have hps : parsePriv cr IdType.p384 (cr.b32e priv) = some priv := by
        simp [parsePriv, hb32s, hsl113]
      simp only [hps]
      simp [finalCheck, hck, hfh]

set_option maxRecDepth 20000 in
/-- C5 (counterexample): an identity successfully parsed by `unmarshal`
(whose reserved address `unmarshal` does not check) does NOT survive the
textual round trip: `fromString (toString id true)` fails, because
`fromString` rejects the reserved address.  So the round-trip property
does not hold for every successfully parsed identity. -/
theorem roundtrip_fails_for_parsed_reserved_identity :
    Identity.unmarshal cryptoToy c4bytes = some (c4id, 71) ∧
    (Identity.toString cryptoToy c4id true).bind
      (Identity.fromString cryptoToy) = none := by
  exact ⟨rfl, rfl⟩

/-- C5 (amended): for every identity satisfying the §3 shape invariants
(`ValidShape`: non-reserved 40-bit address, byte-valued blobs of the
sizes fixed by the type, fingerprint hash consistent with the public
blob, and for P384 the address embedded in the hash) — which includes
every generated identity but not every unmarshalled one — serialising
with private material included and parsing back is the identity function,
both through the textual codec and through the binary codec.  The base32
hypotheses state that the (abstract, out-of-source) base32 codec is
invertible and colon-free on the two blobs. -/
theorem roundtrip_serialization (cr : Crypto) (id : Identity)
    (hv : ValidShape cr id)
    (hb32p : cr.b32d (cr.b32e id.pub) = id.pub)
    (hb32pc : ∀ c ∈ cr.b32e id.pub, c ≠ ':')
    (hb32pn : cr.b32e id.pub ≠ [])
    (hb32s : cr.b32d (cr.b32e id.priv) = id.priv)
    (hb32sc : ∀ c ∈ cr.b32e id.priv, c ≠ ':')
    (hb32sn : 1 < (cr.b32e id.priv).length) :
    (Identity.toString cr id true).bind (Identity.fromString cr) = some id ∧
    Identity.unmarshal cr (Identity.marshal id true) =
      some (id, (Identity.marshal id true).length) :=
  ⟨toString_fromString cr id hv hb32p hb32pc hb32pn hb32s hb32sc hb32sn,
   unmarshal_marshal cr id hv⟩

/-- Concrete valid C25519 identity holding private material. -/
def c5wid : Identity :=
  { type := .c25519, addr := 0xaabbccddee,
    fpHash := computeHash cryptoToy .c25519 (List.replicate 64 1),
    pub := List.replicate 64 1, priv := List.replicate 64 2,
    hasPrivate := true }

set_option maxRecDepth 100000 in
/-- Witness for the amended C5 at a concrete valid identity. -/
theorem roundtrip_serialization_witness :
    (Identity.toString cryptoToy c5wid true).bind
      (Identity.fromString cryptoToy) = some c5wid ∧
    Identity.unmarshal cryptoToy (Identity.marshal c5wid true) =
      some (c5wid, (Identity.marshal c5wid true).length) :=
  roundtrip_serialization cryptoToy c5wid
    (by simp only [ValidShape, AllBytes, c5wid]; decide) (by decide) (by decide)
    (by decide) (by decide) (by decide) (by decide)

end ZT
